import Mathlib

/-
  Verification of the sigma_tagger analyzer
  (timesketch/lib/analyzers/sigma_tagger.py).

  The Python module is embedded shallowly:
  - an Event models the per-event mutable state seen through the analyzer
    interface (source attributes, tags, commit count);
  - run_sigma_rule is the rule executor: it walks the matched events,
    merges the rule name into ts_sigma_rule, classifies tags into the
    technique namespace via the index-based loop of the source (which
    calls list.remove while iterating), applies ordinary tags and commits;
  - run is the batch coordinator: it iterates rule behaviors (first
    attempt and, after a TransportError, one retry), tallies counts in a
    dict keyed by file name, collects problem strings and builds the
    summary string.

  Python-specific semantics are modelled explicitly: list.remove drops the
  first occurrence; the for loop over a list fetches by an internal index
  that is not adjusted when the list shrinks; list(set(xs)) deduplicates;
  iterating None raises TypeError; an exception raised inside an except
  handler of a try statement is not caught by the other handlers of that
  same try and so propagates out of the enclosing function.
-/

namespace SigmaTagger

/-- Membership of a tag in the technique namespace: the source tests
tag.startswith(("attack.", "car.")) (sigma_tagger.py line 50). -/
def isTechniqueTag (tag : String) : Bool :=
  List.isPrefixOf "attack.".data tag.data || List.isPrefixOf "car.".data tag.data

/-- Python list.remove(x): delete the first occurrence of x. -/
def removeFirst : List String → String → List String
  | [], _ => []
  | x :: xs, t => if x = t then xs else x :: removeFirst xs t

/-- Python list(set(xs)): a duplicate-free list with the same members
(the arbitrary set order is modelled as Mathlib dedup order; all reserved
attributes are specified as order-irrelevant sets). -/
def pyDedup (l : List String) : List String := l.dedup

/-- The tag classification loop of run_sigma_rule (lines 47-52), with
Python for-statement semantics: an internal index i fetches tagList[i],
the body runs, then i is incremented; tagList.remove(tag) inside the body
shrinks the list without adjusting i. fuel bounds the iteration count and
never runs out when it starts at the initial list length, since i grows by
one per iteration and the length never grows. Returns the final tag list
and the final ts_ttp accumulator. -/
def tagLoop : Nat → Nat → List String → List String → List String × List String
  | 0, _, tagList, ttp => (tagList, ttp)
  | fuel + 1, i, tagList, ttp =>
    if h : i < tagList.length then
      if isTechniqueTag (tagList.get ⟨i, h⟩) then
        tagLoop fuel (i + 1) (removeFirst tagList (tagList.get ⟨i, h⟩))
          (ttp ++ [tagList.get ⟨i, h⟩])
      else
        tagLoop fuel (i + 1) tagList ttp
    else
      (tagList, ttp)

/-- An event as seen by the analyzer: the reserved source attributes
ts_sigma_rule and ts_ttp, the ordinary tag set, and how many times
commit() has been called on it. -/
structure Event where
  ts_sigma_rule : List String
  ts_ttp : List String
  tags : List String
  commits : Nat
deriving DecidableEq, Repr

/-- Modelled from the spec: event.add_tags applies ordinary tags with
idempotent union semantics (the analyzer interface implementation is an
external collaborator). The argument passed by run_sigma_rule is the tag
list after the classification loop. -/
def addTags (existing new : List String) : List String :=
  existing ++ new.filter (fun t => !existing.contains t)

/-- The body of the per-event loop of run_sigma_rule (lines 43-57):
merge the rule name into ts_sigma_rule, run the classification loop over
the (shared, mutable) tag list starting the ts_ttp accumulator at the
current attribute value, add the remaining tags as ordinary tags, write
ts_ttp back when non-empty, and commit. Returns the updated event together
with the tag list object after the in-place mutations. -/
def processEvent (rule_name : String) (tag_list : List String) (e : Event) :
    Event × List String :=
  let e1 : Event := { e with ts_sigma_rule := pyDedup (e.ts_sigma_rule ++ [rule_name]) }
  let p := tagLoop tag_list.length 0 tag_list e1.ts_ttp
  let e2 : Event := { e1 with tags := addTags e1.tags p.1 }
  let e3 : Event := if p.2.length > 0 then { e2 with ts_ttp := pyDedup p.2 } else e2
  ({ e3 with commits := e3.commits + 1 }, p.1)

/-- The outcome of one successful run_sigma_rule call: the updated events,
the tag list object after all in-place mutations (the same object the
caller supplied, so this is also the state of rule.tags afterwards), and
the tagged events counter. -/
structure RuleExecution where
  events : List Event
  tag_list : List String
  tagged_events_counter : Nat
deriving DecidableEq, Repr

/-- The event loop of run_sigma_rule (lines 42-57), threading the shared
tag list left to right through the matched events. -/
def runEvents (rule_name : String) : List Event → List String → RuleExecution
  | [], tl => ⟨[], tl, 0⟩
  | e :: es, tl =>
    let p := processEvent rule_name tl e
    let rest := runEvents rule_name es p.2
    ⟨p.1 :: rest.events, rest.tag_list, rest.tagged_events_counter + 1⟩

/-- run_sigma_rule (lines 27-58). The lazy event stream for the query is
given as the list of events the query matches. tag_list defaults to none
as in the source; with a None tag list, the statement for tag in tag_list
raises TypeError as soon as the first event is processed, while with no
matched events the loop body never runs and 0 is returned. -/
def run_sigma_rule (events : List Event) (rule_name : String)
    (tag_list : Option (List String) := none) : Except String RuleExecution :=
  match tag_list with
  | some tl => .ok (runEvents rule_name events tl)
  | none =>
    match events with
    | [] => .ok ⟨[], [], 0⟩
    | _ :: _ => .error "TypeError: NoneType object is not iterable"

/-- The terminal result of one run_sigma_rule invocation under the batch
coordinator, as the coordinator observes it: the call returns a count, or
raises elasticsearch.TransportError (retryable), or raises any other
exception (fatal, caught by the bare except clause). -/
inductive ExecResult where
  | success : Nat → ExecResult
  | retryable : ExecResult
  | fatal : ExecResult
deriving DecidableEq, Repr

/-- A sigma rule record as supplied by the rule source. -/
structure Rule where
  file_name : String
  es_query : String
  tags : List String
deriving DecidableEq, Repr

/-- A rule together with the outcomes of its executions during this run:
attempt1 is what the first run_sigma_rule call does, attempt2 what the
retry does (consulted only after a retryable attempt1). -/
structure RuleBehavior where
  rule : Rule
  attempt1 : ExecResult
  attempt2 : ExecResult
deriving DecidableEq, Repr

/-- Python dict assignment d[k] = v on a string-keyed dict, modelled as an
association list in insertion order. -/
def dictSet (d : List (String × Nat)) (k : String) (v : Nat) : List (String × Nat) :=
  if d.any (fun p => p.1 = k) then
    d.map (fun p => if p.1 = k then (k, v) else p)
  else
    d ++ [(k, v)]

/-- Python dict lookup d[k] for a key known to be present (0 otherwise;
run only reads keys it has initialised). -/
def dictGet (d : List (String × Nat)) (k : String) : Nat :=
  match d.find? (fun p => p.1 = k) with
  | some p => p.2
  | none => 0

/-- The mutable locals of run while the per-rule loop executes. -/
structure RunState where
  tags_applied : List (String × Nat)
  sigma_rule_counter : Nat
  problem_strings : List String
  sleeps : List Nat
deriving DecidableEq, Repr

/-- State of run just before the per-rule loop (lines 67-73). -/
def initState : RunState := ⟨[], 0, [], []⟩

/-- The per-rule loop of run (lines 75-110). cfg is the process-wide
SIGMA_TAG_DELAY configuration entry (none when unset). For every rule:
initialise its dict entry to 0, increment the rule counter, then execute.
A fatal first attempt is caught by the bare except, which appends the
problem string and continues. A retryable first attempt sleeps for the
configured cooldown and re-invokes run_sigma_rule once, inside the except
handler; when that retry raises again, no handler of the try statement
applies, so the exception propagates out of run, which the Bool component
records (true means the loop was abandoned by an escaping exception). -/
def runLoop (cfg : Option Nat) : List RuleBehavior → RunState → RunState × Bool
  | [], st => (st, false)
  | rb :: rest, st =>
    let fn := rb.rule.file_name
    let st1 : RunState := { st with tags_applied := dictSet st.tags_applied fn 0 }
    let st2 : RunState := { st1 with sigma_rule_counter := st1.sigma_rule_counter + 1 }
    match rb.attempt1 with
    | .success n =>
      runLoop cfg rest { st2 with
        tags_applied := dictSet st2.tags_applied fn (dictGet st2.tags_applied fn + n) }
    | .fatal =>
      runLoop cfg rest { st2 with
        problem_strings := st2.problem_strings ++ ["* " ++ fn] }
    | .retryable =>
      let sleep_time := cfg.getD 15
      let st3 : RunState := { st2 with sleeps := st2.sleeps ++ [sleep_time] }
      match rb.attempt2 with
      | .success n =>
        runLoop cfg rest { st3 with
          tags_applied := dictSet st3.tags_applied fn (dictGet st3.tags_applied fn + n) }
      | _ => (st3, true)

/-- What a run invocation produces, beyond its side effects on events:
the summary string (or the message of an escaping exception), the
sequence of time.sleep durations, and the argument of the
add_sigma_match_view call when it was made. -/
structure RunOutput where
  result : Except String String
  sleeps : List Nat
  viewCall : Option Nat
deriving Repr

/-- run (lines 60-122). sigma_rules is the value of
get_all_sigma_rules(): none models a None return, for which the source
merely logs an error and then crashes with TypeError on the for statement.
Otherwise the per-rule loop runs; if an exception escapes it, run raises.
On normal completion the total is summed, the Applied line is emitted,
add_sigma_match_view(sigma_rule_counter) is invoked iff the total is
positive, and the problem block is appended iff problem_strings is
non-empty. -/
def run (cfg : Option Nat) (sigma_rules : Option (List RuleBehavior)) : RunOutput :=
  match sigma_rules with
  | none => ⟨.error "TypeError: NoneType object is not iterable", [], none⟩
  | some rules =>
    let p := runLoop cfg rules initState
    if p.2 then
      ⟨.error "unhandled exception raised by the retry", p.1.sleeps, none⟩
    else
      let st := p.1
      let total := (st.tags_applied.map Prod.snd).sum
      let viewCall := if total > 0 then some st.sigma_rule_counter else none
      let output_strings :=
        if st.problem_strings.length > 0 then
          ["Applied " ++ toString total ++ " tags", "Problematic rules:"]
            ++ st.problem_strings
        else
          ["Applied " ++ toString total ++ " tags"]
      ⟨.ok (String.intercalate "\n" output_strings), st.sleeps, viewCall⟩

/-- The rule identifier used for dict keys and problem strings. -/
def ruleName (rb : RuleBehavior) : String := rb.rule.file_name

/-- Whether the coordinator survives this rule without an exception
escaping: a fatal first attempt is caught by the bare except, a retryable
first attempt is survivable only when its single retry succeeds. -/
def noEscape (rb : RuleBehavior) : Bool :=
  match rb.attempt1 with
  | .retryable => match rb.attempt2 with | .success _ => true | _ => false
  | _ => true

/-- The count recorded for a rule under the one-retry policy. -/
def specCount (rb : RuleBehavior) : Nat :=
  match rb.attempt1 with
  | .success n => n
  | .fatal => 0
  | .retryable => match rb.attempt2 with | .success n => n | _ => 0

/-- Whether the rule fails fatally at its first attempt. -/
def specIsFatal (rb : RuleBehavior) : Bool :=
  match rb.attempt1 with | .fatal => true | _ => false

/-- Whether the rule suffers a retryable first failure, triggering one
cooldown sleep. -/
def specRetried (rb : RuleBehavior) : Bool :=
  match rb.attempt1 with | .retryable => true | _ => false

/-- The total tagged-event count of a run: the sum of all per-rule
tagged-event counts. -/
def specTotal (rules : List RuleBehavior) : Nat := (rules.map specCount).sum

/-- Lines of the summary as the specification prescribes them: a first
line "Applied N tags" and, exactly when at least one rule failed fatally,
a line "Problematic rules:" followed by one bullet per failed rule
identifier. -/
def specSummaryLines (rules : List RuleBehavior) : List String :=
  ["Applied " ++ toString (specTotal rules) ++ " tags"]
    ++ if (rules.filter specIsFatal).length > 0 then
        "Problematic rules:" :: (rules.filter specIsFatal).map (fun rb => "* " ++ ruleName rb)
      else []

/-- The summary string the specification prescribes: the summary lines
joined by newlines. -/
def specSummary (rules : List RuleBehavior) : String :=
  String.intercalate "\n" (specSummaryLines rules)

/-- The state of an event after a sequence of reconciliations, each given
by the rule name and the tag list run_sigma_rule supplies for it. -/
def applyReconciliations (e : Event) : List (String × List String) → Event
  | [] => e
  | s :: rest => applyReconciliations (processEvent s.1 s.2 e).1 rest

theorem dictSet_fresh (d : List (String × Nat)) (k : String) (v : Nat)
    (h : ∀ p ∈ d, p.1 ≠ k) : dictSet d k v = d ++ [(k, v)] := by
  have hany : d.any (fun p => p.1 = k) = false := by
    simp only [List.any_eq_false, decide_eq_true_eq]
    exact h
  simp [dictSet, hany]

theorem dictGet_append_fresh (d : List (String × Nat)) (k : String) (v : Nat)
    (h : ∀ p ∈ d, p.1 ≠ k) : dictGet (d ++ [(k, v)]) k = v := by
  induction d with
  | nil => simp [dictGet]
  | cons p d ih =>
    have hp : p.1 ≠ k := h p (List.mem_cons_self _ _)
    have ih2 := ih (fun q hq => h q (List.mem_cons_of_mem _ hq))
    simpa [dictGet, List.find?_cons, hp] using ih2

theorem dictSet_overwrite_fresh (d : List (String × Nat)) (k : String) (v w : Nat)
    (h : ∀ p ∈ d, p.1 ≠ k) : dictSet (d ++ [(k, v)]) k w = d ++ [(k, w)] := by
  have hany : (d ++ [(k, v)]).any (fun p => p.1 = k) = true := by
    simp [List.any_append]
  have hmap : d.map (fun p => if p.1 = k then (k, w) else p) = d := by
    induction d with
    | nil => rfl
    | cons p d ih =>
      have hp : p.1 ≠ k := h p (List.mem_cons_self _ _)
      have ih2 := ih (fun q hq => h q (List.mem_cons_of_mem _ hq))
      simp [hp, ih2]
  simp [dictSet, hany, hmap]

/-- Characterisation of the per-rule loop when every rule completes
without an escaping exception and the rule identifiers are pairwise
distinct: counts are recorded per rule under the one-retry policy, the
rule counter counts every rule, fatal first attempts contribute problem
strings, and retryable first attempts contribute cooldown sleeps. -/
theorem runLoop_spec (cfg : Option Nat) (rules : List RuleBehavior) :
    ∀ st : RunState,
      (∀ rb ∈ rules, noEscape rb = true) →
      (rules.map ruleName).Nodup →
      (∀ rb ∈ rules, ∀ p ∈ st.tags_applied, p.1 ≠ ruleName rb) →
      runLoop cfg rules st =
        (⟨st.tags_applied ++ rules.map (fun rb => (ruleName rb, specCount rb)),
          st.sigma_rule_counter + rules.length,
          st.problem_strings ++ (rules.filter specIsFatal).map (fun rb => "* " ++ ruleName rb),
          st.sleeps ++ (rules.filter specRetried).map (fun _ => cfg.getD 15)⟩, false) := by
  induction rules with
  | nil => intro st _ _ _; simp [runLoop]
  | cons rb rest ih =>
    intro st h1 h2 h3
    rcases rb with ⟨rule, a1, a2⟩
    have hfresh : ∀ p ∈ st.tags_applied, p.1 ≠ rule.file_name :=
      h3 ⟨rule, a1, a2⟩ (List.mem_cons_self _ _)
    have h1r : ∀ x ∈ rest, noEscape x = true :=
      fun x hx => h1 x (List.mem_cons_of_mem _ hx)
    have h2r : (rest.map ruleName).Nodup := (List.nodup_cons.mp (by simpa using h2)).2
    have hnotin : rule.file_name ∉ rest.map ruleName :=
      (List.nodup_cons.mp (by simpa using h2)).1
    have h3r : ∀ (m : Nat) (x : RuleBehavior), x ∈ rest →
        ∀ p ∈ st.tags_applied ++ [(rule.file_name, m)], p.1 ≠ ruleName x := by
      intro m x hx p hp
      rcases List.mem_append.mp hp with hp1 | hp2
      · exact h3 x (List.mem_cons_of_mem _ hx) p hp1
      · have hpe : p = (rule.file_name, m) := by simpa using hp2
        subst hpe
        intro hcontra
        have hcontra2 : rule.file_name = ruleName x := hcontra
        rw [hcontra2] at hnotin
        exact hnotin (List.mem_map_of_mem ruleName hx)
    have hset0 : dictSet st.tags_applied rule.file_name 0 =
        st.tags_applied ++ [(rule.file_name, 0)] :=
      dictSet_fresh _ _ _ hfresh
    have hget0 : dictGet (st.tags_applied ++ [(rule.file_name, 0)]) rule.file_name = 0 :=
      dictGet_append_fresh _ _ _ hfresh
    cases a1 with
    | success n =>
      have hstep : runLoop cfg (⟨rule, .success n, a2⟩ :: rest) st =
          runLoop cfg rest
            ⟨st.tags_applied ++ [(rule.file_name, n)], st.sigma_rule_counter + 1,
             st.problem_strings, st.sleeps⟩ := by
        simp only [runLoop]
        rw [hset0, hget0, dictSet_overwrite_fresh _ _ _ _ hfresh]
        simp
      rw [hstep, ih _ h1r h2r (h3r n)]
      simp only [Prod.mk.injEq, RunState.mk.injEq, List.map_cons, List.length_cons,
        List.filter_cons, specCount, specIsFatal, specRetried, ruleName,
        cond_false, cond_true, decide_False, decide_True, and_true, true_and]
      refine ⟨?_, ?_, ?_, ?_⟩ <;>
        first
          | omega
          | simp [List.append_assoc]
    | fatal =>
      have hstep : runLoop cfg (⟨rule, .fatal, a2⟩ :: rest) st =
          runLoop cfg rest
            ⟨st.tags_applied ++ [(rule.file_name, 0)], st.sigma_rule_counter + 1,
             st.problem_strings ++ ["* " ++ rule.file_name], st.sleeps⟩ := by
        simp only [runLoop]
        rw [hset0]
      rw [hstep, ih _ h1r h2r (h3r 0)]
      simp only [Prod.mk.injEq, RunState.mk.injEq, List.map_cons, List.length_cons,
        List.filter_cons, specCount, specIsFatal, specRetried, ruleName,
        cond_false, cond_true, decide_False, decide_True, and_true, true_and]
      refine ⟨?_, ?_, ?_, ?_⟩ <;>
        first
          | omega
          | simp [List.append_assoc]
    | retryable =>
      have hne := h1 ⟨rule, .retryable, a2⟩ (List.mem_cons_self _ _)
      cases a2 with
      | success n =>
        have hstep : runLoop cfg (⟨rule, .retryable, .success n⟩ :: rest) st =
            runLoop cfg rest
              ⟨st.tags_applied ++ [(rule.file_name, n)], st.sigma_rule_counter + 1,
               st.problem_strings, st.sleeps ++ [cfg.getD 15]⟩ := by
          simp only [runLoop]
          rw [hset0, hget0, dictSet_overwrite_fresh _ _ _ _ hfresh]
          simp
        rw [hstep, ih _ h1r h2r (h3r n)]
        simp only [Prod.mk.injEq, RunState.mk.injEq, List.map_cons, List.length_cons,
          List.filter_cons, specCount, specIsFatal, specRetried, ruleName,
          cond_false, cond_true, decide_False, decide_True, and_true, true_and]
        refine ⟨?_, ?_, ?_, ?_⟩ <;>
          first
            | omega
            | simp [List.append_assoc]
      | retryable => simp [noEscape] at hne
      | fatal => simp [noEscape] at hne

theorem tagLoop_ttp_mono (fuel : Nat) :
    ∀ (i : Nat) (tl ttp : List String) (x : String),
      x ∈ ttp → x ∈ (tagLoop fuel i tl ttp).2 := by
  induction fuel with
  | zero => intro i tl ttp x hx; simpa [tagLoop] using hx
  | succ fuel ih =>
    intro i tl ttp x hx
    simp only [tagLoop]
    split
    · split
      · exact ih _ _ _ _ (List.mem_append_left _ hx)
      · exact ih _ _ _ _ hx
    · simpa using hx

theorem processEvent_ts_sigma_rule (rn : String) (tl : List String) (e : Event) :
    (processEvent rn tl e).1.ts_sigma_rule = pyDedup (e.ts_sigma_rule ++ [rn]) := by
  simp only [processEvent]
  split <;> rfl

theorem processEvent_commits (rn : String) (tl : List String) (e : Event) :
    (processEvent rn tl e).1.commits = e.commits + 1 := by
  simp only [processEvent]
  split <;> rfl

theorem processEvent_ts_ttp_cases (rn : String) (tl : List String) (e : Event) :
    (processEvent rn tl e).1.ts_ttp = pyDedup (tagLoop tl.length 0 tl e.ts_ttp).2 ∨
    (processEvent rn tl e).1.ts_ttp = e.ts_ttp := by
  simp only [processEvent]
  split
  · exact Or.inl rfl
  · exact Or.inr rfl

theorem processEvent_ts_ttp_mono (rn : String) (tl : List String) (e : Event) :
    ∀ x ∈ e.ts_ttp, x ∈ (processEvent rn tl e).1.ts_ttp := by
  intro x hx
  rcases processEvent_ts_ttp_cases rn tl e with hc | hc <;> rw [hc]
  · exact List.mem_dedup.mpr (tagLoop_ttp_mono _ _ _ _ _ hx)
  · exact hx

theorem processEvent_ts_ttp_contains_loop_output (rn : String) (tl : List String)
    (e : Event) :
    ∀ x ∈ (tagLoop tl.length 0 tl e.ts_ttp).2, x ∈ (processEvent rn tl e).1.ts_ttp := by
  intro x hx
  simp only [processEvent]
  split
  · exact List.mem_dedup.mpr hx
  · next hlen =>
      have hnil : (tagLoop tl.length 0 tl e.ts_ttp).2 = [] :=
        List.length_eq_zero.mp (Nat.eq_zero_of_not_pos hlen)
      rw [hnil] at hx
      cases hx

theorem processEvent_ts_sigma_rule_mono (rn : String) (tl : List String) (e : Event) :
    ∀ x ∈ e.ts_sigma_rule, x ∈ (processEvent rn tl e).1.ts_sigma_rule := by
  intro x hx
  rw [processEvent_ts_sigma_rule]
  exact List.mem_dedup.mpr (List.mem_append_left _ hx)

theorem runEvents_count_and_commits (rn : String) :
    ∀ (events : List Event) (tl : List String),
      (runEvents rn events tl).tagged_events_counter = events.length ∧
      List.Forall₂ (fun a b => b.commits = a.commits + 1) events
        (runEvents rn events tl).events := by
  intro events
  induction events with
  | nil => intro tl; exact ⟨rfl, List.Forall₂.nil⟩
  | cons e es ih =>
    intro tl
    have ih2 := ih (processEvent rn tl e).2
    refine ⟨?_, ?_⟩
    · simpa [runEvents] using ih2.1
    · simp only [runEvents]
      exact List.Forall₂.cons (processEvent_commits rn tl e) ih2.2

/-- C1: classification of a mixed tag list. Refuted at the tag list
["attack.t1059", "car.t1105"]: Python list.remove inside the iteration
shifts the list under the internal index, so "car.t1105" is never
examined; it is missing from the ts_ttp write and is passed on to the
generic add_tags mechanism, where it becomes an ordinary tag of the
event. -/
theorem technique_tag_reaches_ordinary_mechanism :
    run_sigma_rule [⟨[], [], [], 0⟩] "rule1" (some ["attack.t1059", "car.t1105"]) =
      Except.ok ⟨[⟨["rule1"], ["attack.t1059"], ["car.t1105"], 1⟩], ["car.t1105"], 1⟩ ∧
    isTechniqueTag "car.t1105" = true :=
  ⟨rfl, rfl⟩

/-- C5: across any sequence of reconciliations, ts_sigma_rule and ts_ttp
grow monotonically; every write of ts_sigma_rule contains the previously
present elements plus the rule name being merged, every write of ts_ttp
contains the previously present elements plus the technique tags the
classification loop collected, and every written value is
duplicate-free. -/
theorem event_attribute_sets_monotone (e : Event) (steps : List (String × List String)) :
    (∀ x ∈ e.ts_sigma_rule, x ∈ (applyReconciliations e steps).ts_sigma_rule) ∧
    (∀ x ∈ e.ts_ttp, x ∈ (applyReconciliations e steps).ts_ttp) ∧
    (∀ (rn : String) (tl : List String) (ev : Event),
      (processEvent rn tl ev).1.ts_sigma_rule.Nodup ∧
      rn ∈ (processEvent rn tl ev).1.ts_sigma_rule ∧
      (∀ x ∈ ev.ts_sigma_rule, x ∈ (processEvent rn tl ev).1.ts_sigma_rule) ∧
      (∀ x ∈ ev.ts_ttp, x ∈ (processEvent rn tl ev).1.ts_ttp) ∧
      (∀ x ∈ (tagLoop tl.length 0 tl ev.ts_ttp).2, x ∈ (processEvent rn tl ev).1.ts_ttp) ∧
      ((processEvent rn tl ev).1.ts_ttp = ev.ts_ttp ∨
        (processEvent rn tl ev).1.ts_ttp.Nodup)) := by
  have hstep : ∀ (rn : String) (tl : List String) (ev : Event),
      (processEvent rn tl ev).1.ts_sigma_rule.Nodup ∧
      rn ∈ (processEvent rn tl ev).1.ts_sigma_rule ∧
      (∀ x ∈ ev.ts_sigma_rule, x ∈ (processEvent rn tl ev).1.ts_sigma_rule) ∧
      (∀ x ∈ ev.ts_ttp, x ∈ (processEvent rn tl ev).1.ts_ttp) ∧
      (∀ x ∈ (tagLoop tl.length 0 tl ev.ts_ttp).2, x ∈ (processEvent rn tl ev).1.ts_ttp) ∧
      ((processEvent rn tl ev).1.ts_ttp = ev.ts_ttp ∨
        (processEvent rn tl ev).1.ts_ttp.Nodup) := by
    intro rn tl ev
    refine ⟨?_, ?_, processEvent_ts_sigma_rule_mono rn tl ev,
      processEvent_ts_ttp_mono rn tl ev,
      processEvent_ts_ttp_contains_loop_output rn tl ev, ?_⟩
    · rw [processEvent_ts_sigma_rule]; exact List.nodup_dedup _
    · rw [processEvent_ts_sigma_rule]
      exact List.mem_dedup.mpr (List.mem_append_right _ (List.mem_singleton_self _))
    · rcases processEvent_ts_ttp_cases rn tl ev with hc | hc <;> rw [hc]
      · exact Or.inr (List.nodup_dedup _)
      · exact Or.inl rfl
  refine ⟨?_, ?_, hstep⟩
  · induction steps generalizing e with
    | nil => intro x hx; exact hx
    | cons s rest ih =>
      intro x hx
      exact ih _ x ((hstep s.1 s.2 e).2.2.1 x hx)
  · induction steps generalizing e with
    | nil => intro x hx; exact hx
    | cons s rest ih =>
      intro x hx
      exact ih _ x ((hstep s.1 s.2 e).2.2.2.1 x hx)

/-- C7: immutability of the rule tag list. Refuted at the tag list
["attack.t1059", "susp_cmd"] and a single matching event: the
classification loop calls list.remove on the very list object that
rule.get("tags") supplied, so after the execution that list is
["susp_cmd"], not what the rule source supplied. -/
theorem rule_tag_list_mutated :
    run_sigma_rule [⟨[], [], [], 0⟩] "rule1" (some ["attack.t1059", "susp_cmd"]) =
      Except.ok ⟨[⟨["rule1"], ["attack.t1059"], ["susp_cmd"], 1⟩], ["susp_cmd"], 1⟩ ∧
    ["susp_cmd"] ≠ ["attack.t1059", "susp_cmd"] :=
  ⟨rfl, by decide⟩

/-- C9: run_sigma_rule with tag_list left at its declared default of none
fails on any query that matches at least one event, because the iteration
over the tag list raises TypeError. -/
theorem none_tag_list_raises (events : List Event) (rn : String)
    (h : events ≠ []) :
    ∃ msg, run_sigma_rule events rn none = Except.error msg := by
  cases events with
  | nil => exact absurd rfl h
  | cons e es => exact ⟨_, rfl⟩

theorem none_tag_list_raises_witness :
    ([⟨[], [], [], 0⟩] : List Event) ≠ [] ∧
    (∃ msg, run_sigma_rule [⟨[], [], [], 0⟩] "any_rule" none = Except.error msg) :=
  ⟨by simp, none_tag_list_raises [⟨[], [], [], 0⟩] "any_rule" (by simp)⟩

/-- C2: retry failure handling. Refuted: when the first attempt raises a
retryable failure and the single retry fails too (here fatally), the
retry runs inside the except handler for TransportError, so its exception
is not caught by the bare except clause of the same try statement; the
rule is not added to the problem list and the exception escapes run,
skipping every later rule, contrary to the claimed isolation boundary. -/
theorem retry_failure_escapes_run :
    (run (some 7) (some [⟨⟨"R1", "q1", []⟩, .retryable, .fatal⟩,
                         ⟨⟨"R2", "q2", []⟩, .success 3, .success 3⟩])).result =
      Except.error "unhandled exception raised by the retry" ∧
    runLoop (some 7) [⟨⟨"R1", "q1", []⟩, .retryable, .fatal⟩,
                      ⟨⟨"R2", "q2", []⟩, .success 3, .success 3⟩] initState =
      (⟨[("R1", 0)], 1, [], [7]⟩, true) :=
  ⟨rfl, rfl⟩

/-- C3: empty or unavailable rule source. Refuted for the None half of
the claim: run logs a diagnostic but then iterates the None rule
collection, raising TypeError instead of returning an empty summary; for
an empty rule list the empty summary is produced as claimed. -/
theorem none_rule_source_crashes :
    (run none none).result = Except.error "TypeError: NoneType object is not iterable" ∧
    (run none (some [])).result = Except.ok "Applied 0 tags" ∧
    (run none (some [])).viewCall = none ∧
    (run none (some [])).sleeps = [] :=
  ⟨rfl, rfl, rfl, rfl⟩

/-- C4: for every run in which no exception escapes the per-rule loop and
the rule identifiers are pairwise distinct, the returned summary is the
specified one: first line Applied N tags with N the sum of the per-rule
tagged-event counts, and a Problematic rules: line followed by one bullet
per fatally failed rule exactly when some rule failed fatally. -/
theorem run_summary_matches_spec (cfg : Option Nat) (rules : List RuleBehavior)
    (h1 : ∀ rb ∈ rules, noEscape rb = true)
    (h2 : (rules.map ruleName).Nodup) :
    (run cfg (some rules)).result = Except.ok (specSummary rules) := by
  have hloop := runLoop_spec cfg rules initState h1 h2
    (by intro rb _ p hp; simp [initState] at hp)
  simp only [initState] at hloop
  have hmap : (rules.map (fun rb => (ruleName rb, specCount rb))).map Prod.snd =
      rules.map specCount := by
    rw [List.map_map]
    rfl
  by_cases hf : 0 < (rules.filter specIsFatal).length
  · simp [run, initState, hloop, hmap, specSummary, specSummaryLines, specTotal, hf]
  · simp [run, initState, hloop, hmap, specSummary, specSummaryLines, specTotal, hf]

theorem run_summary_matches_spec_witness :
    (run none (some [⟨⟨"A", "qa", ["susp_proc"]⟩, .success 2, .success 2⟩,
                     ⟨⟨"B", "qb", []⟩, .success 0, .success 0⟩,
                     ⟨⟨"C", "qc", []⟩, .fatal, .fatal⟩])).result =
      Except.ok "Applied 2 tags\nProblematic rules:\n* C" := by
  have h := run_summary_matches_spec none
    [⟨⟨"A", "qa", ["susp_proc"]⟩, .success 2, .success 2⟩,
     ⟨⟨"B", "qb", []⟩, .success 0, .success 0⟩,
     ⟨⟨"C", "qc", []⟩, .fatal, .fatal⟩]
    (by decide) (by decide)
  rw [h]
  rfl

/-- C6: for every rule whose first execution raises a retryable failure
and whose retry succeeds with count n, the cooldown sleep runs exactly
once with the configured duration (the SIGMA_TAG_DELAY entry, defaulting
to 15 when unset), and the count finally recorded for the rule is the
count n returned by the retry. -/
theorem retry_cooldown_once_and_count (cfg : Option Nat) (r : Rule) (n : Nat) :
    (run cfg (some [⟨r, .retryable, .success n⟩])).sleeps = [cfg.getD 15] ∧
    (runLoop cfg [⟨r, .retryable, .success n⟩] initState).1.tags_applied =
      [(r.file_name, n)] := by
  have hloop := runLoop_spec cfg [⟨r, .retryable, .success n⟩] initState
    (by intro rb hrb
        have hrb2 : rb = ⟨r, .retryable, .success n⟩ := by simpa using hrb
        subst hrb2
        rfl)
    (by simp)
    (by intro rb _ p hp; simp [initState] at hp)
  simp only [initState] at hloop
  constructor
  · simp [run, initState, hloop, specRetried]
  · simp [initState, hloop, specCount, ruleName]

/-- C8: the reporting sink add_sigma_match_view is invoked exactly when
the total tagged-event count is positive, and then with the number of
rules processed, which equals the number of rules in the source list. -/
theorem reporting_sink_iff_total_positive (cfg : Option Nat) (rules : List RuleBehavior)
    (h1 : ∀ rb ∈ rules, noEscape rb = true)
    (h2 : (rules.map ruleName).Nodup) :
    (run cfg (some rules)).viewCall =
      (if 0 < specTotal rules then some rules.length else none) := by
  have hloop := runLoop_spec cfg rules initState h1 h2
    (by intro rb _ p hp; simp [initState] at hp)
  simp only [initState] at hloop
  have hmap : (rules.map (fun rb => (ruleName rb, specCount rb))).map Prod.snd =
      rules.map specCount := by
    rw [List.map_map]
    rfl
  by_cases ht : 0 < specTotal rules
  · simp [run, initState, hloop, hmap, specTotal, ht]
  · simp [run, initState, hloop, hmap, specTotal, ht]

theorem reporting_sink_iff_total_positive_witness :
    (run none (some [⟨⟨"A", "qa", []⟩, .success 2, .success 2⟩])).viewCall = some 1 := by
  have h := reporting_sink_iff_total_positive none
    [⟨⟨"A", "qa", []⟩, .success 2, .success 2⟩] (by decide) (by decide)
  rw [h]
  rfl

/-- C10: every run_sigma_rule execution over a matched event list, with
any tag list, returns the number of matched events as its counter and
commits each matched event exactly once, independent of how many tags the
list contributes. -/
theorem each_matched_event_counted_once (events : List Event) (rn : String)
    (tl : List String) :
    ∃ r : RuleExecution,
      run_sigma_rule events rn (some tl) = Except.ok r ∧
      r.tagged_events_counter = events.length ∧
      List.Forall₂ (fun a b => b.commits = a.commits + 1) events r.events :=
  ⟨runEvents rn events tl, rfl, (runEvents_count_and_commits rn events tl).1,
    (runEvents_count_and_commits rn events tl).2⟩

end SigmaTagger
